import Mathlib

/-!
Verification of the research pipeline (Netizine/researcher).

Shallow embedding of the url deduplication, image selection, curation,
report generation, provider resolution, cost ledger and review loop logic,
with theorems settling the spec's claims about them.
-/

namespace Researcher

/-! ## URL deduplication (`ResearchSkill._get_new_urls`, skills/researcher.py) -/

/-- Embeds `ResearchSkill._get_new_urls`: iterate over the input url batch;
a url already in `visited_urls` is skipped, otherwise it is added to
`visited_urls` and appended to `new_urls`.  Returns the pair
(new_urls, visited_urls after the call). -/
def get_new_urls : List String → Finset String → List String × Finset String
  | [], visited => ([], visited)
  | url :: rest, visited =>
    if url ∈ visited then
      get_new_urls rest visited
    else
      ((url :: (get_new_urls rest (insert url visited)).1,
        (get_new_urls rest (insert url visited)).2))

/-- Spec-side reference for "first occurrence, in input order": keep the first
occurrence of each url, dropping the later duplicates. -/
def dedupFirst : List String → List String
  | [] => []
  | u :: rest => u :: dedupFirst (rest.filter (fun v => decide (v ≠ u)))
termination_by l => l.length
decreasing_by
  simp only [List.length_cons]
  exact Nat.lt_succ_of_le (List.length_filter_le _ _)

/-- Spec-side reference: the urls of the batch that are not in the prior
visited set, first occurrences, in input order. -/
def new_urls_spec (V : Finset String) (B : List String) : List String :=
  dedupFirst (B.filter (fun u => decide (u ∉ V)))

lemma filter_not_mem_insert (u : String) (V : Finset String) (l : List String) :
    l.filter (fun v => decide (v ∉ insert u V)) =
      (l.filter (fun v => decide (v ∉ V))).filter (fun v => decide (v ≠ u)) := by
  rw [List.filter_filter]
  apply List.filter_congr
  intro v _
  by_cases h1 : v = u <;> by_cases h2 : v ∈ V <;> simp [h1, h2]

/-- C1. URL deduplication: `_get_new_urls(B)` returns exactly the urls of the
batch `B` that are not in the prior visited set `V` (first occurrence, in
input order), and afterwards the visited set equals `V ∪ B`. -/
theorem get_new_urls_dedup (V : Finset String) (B : List String) :
    (get_new_urls B V).1 = new_urls_spec V B ∧
      (get_new_urls B V).2 = V ∪ B.toFinset := by
  induction B generalizing V with
  | nil => simp [get_new_urls, new_urls_spec, dedupFirst]
  | cons u rest ih =>
    by_cases hu : u ∈ V
    · refine ⟨?_, ?_⟩
      · have h1 := (ih V).1
        simp only [get_new_urls, if_pos hu]
        rw [h1]
        simp [new_urls_spec, List.filter_cons, hu]
      · have h2 := (ih V).2
        simp only [get_new_urls, if_pos hu]
        rw [h2]
        ext a
        simp only [Finset.mem_union, List.toFinset_cons, Finset.mem_insert]
        constructor
        · rintro (h | h)
          · exact Or.inl h
          · exact Or.inr (Or.inr h)
        · rintro (h | h | h)
          · exact Or.inl h
          · exact Or.inl (h ▸ hu)
          · exact Or.inr h
    · refine ⟨?_, ?_⟩
      · have h1 := (ih (insert u V)).1
        simp only [get_new_urls, if_neg hu]
        rw [h1]
        simp only [new_urls_spec, filter_not_mem_insert]
        have hP : (u :: rest).filter (fun v => decide (v ∉ V)) =
            u :: rest.filter (fun v => decide (v ∉ V)) := by
          simp [List.filter_cons, hu]
        rw [hP]
        simp [dedupFirst]
      · have h2 := (ih (insert u V)).2
        simp only [get_new_urls, if_neg hu]
        rw [h2]
        ext a
        simp only [Finset.mem_union, Finset.mem_insert, List.toFinset_cons]
        tauto

/-! ## Cost ledger (`GPTResearcher.add_costs`, icis_researcher/agent.py) -/

/-- A python value passed to `add_costs`: numeric (an int or float, modelled
as a rational) or non-numeric. -/
inductive CostArg where
  | num (q : ℚ)
  | nonNumeric
deriving DecidableEq

/-- Embeds `GPTResearcher.add_costs`: a non-numeric cost raises
`ValueError("Cost must be an integer or float")` before any mutation; a
numeric cost is added onto `state["costs"]`.  Returns the total after the
call and the raised error, if any. -/
def add_costs (cost : CostArg) (costs : ℚ) : ℚ × Option String :=
  match cost with
  | .num q => (costs + q, none)
  | .nonNumeric => (costs, some "Cost must be an integer or float")

/-- A sequence of `add_costs` calls threading the stored total. -/
def run_add_costs (args : List CostArg) (costs : ℚ) : ℚ :=
  args.foldl (fun c a => (add_costs a c).1) costs

lemma run_add_costs_num_sum (cs : List ℚ) (s : ℚ) :
    run_add_costs (cs.map CostArg.num) s = s + cs.sum := by
  induction cs generalizing s with
  | nil => simp [run_add_costs]
  | cons c rest ih =>
    have step : run_add_costs ((c :: rest).map CostArg.num) s =
        run_add_costs (rest.map CostArg.num) (s + c) := rfl
    rw [step, ih (s + c), List.sum_cons]
    ring

/-- C9. Cost ledger arithmetic and atomicity: N valid numeric `add_costs`
calls starting from total 0 leave the total at Σcᵢ, and a non-numeric amount
raises the typed `ValueError` with the stored total exactly as before. -/
theorem add_costs_sum_and_atomic (cs : List ℚ) :
    run_add_costs (cs.map CostArg.num) 0 = cs.sum ∧
      ∀ s : ℚ, add_costs CostArg.nonNumeric s =
        (s, some "Cost must be an integer or float") := by
  refine ⟨?_, fun s => rfl⟩
  simpa using run_add_costs_num_sum cs 0

/-- C3, counterexample: `add_costs` accepts the numeric amount -2 (floats are
numeric regardless of sign), and the accepted call strictly decreases the
stored total from 3 to 1. -/
theorem add_costs_negative_decreases :
    add_costs (CostArg.num (-2)) 3 = (1, none) ∧ (1 : ℚ) < 3 := by
  constructor
  · simp only [add_costs, Prod.mk.injEq]
    norm_num
  · norm_num

/-- C3, amended: over sequences of non-negative numeric amounts the running
cost total is monotonically non-decreasing and never negative (`add_costs`
itself does not reject negative numeric amounts). -/
theorem add_costs_monotone (cs : List ℚ) (h : ∀ c ∈ cs, 0 ≤ c) (n : ℕ) :
    0 ≤ run_add_costs ((cs.take n).map CostArg.num) 0 ∧
      run_add_costs ((cs.take n).map CostArg.num) 0 ≤
        run_add_costs ((cs.take (n + 1)).map CostArg.num) 0 := by
  have hn : ∀ m : ℕ, run_add_costs ((cs.take m).map CostArg.num) 0 =
      (cs.take m).sum := by
    intro m
    simpa using run_add_costs_num_sum (cs.take m) 0
  rw [hn, hn]
  constructor
  · exact List.sum_nonneg fun c hc => h c (List.mem_of_mem_take hc)
  · rw [List.take_succ]
    rw [List.sum_append]
    have hs : 0 ≤ (cs[n]?).toList.sum := by
      cases hg : cs[n]? with
      | none => simp
      | some c =>
        simp only [Option.toList_some, List.sum_cons, List.sum_nil, add_zero]
        exact h c (List.getElem?_mem hg)
    linarith

/-- Witness for `add_costs_monotone` at cs = [1, 2], n = 1. -/
theorem add_costs_monotone_witness :
    0 ≤ run_add_costs (([(1 : ℚ), 2].take 1).map CostArg.num) 0 ∧
      run_add_costs (([(1 : ℚ), 2].take 1).map CostArg.num) 0 ≤
        run_add_costs (([(1 : ℚ), 2].take 2).map CostArg.num) 0 :=
  add_costs_monotone [1, 2] (by norm_num) 1

/-! ## Source curation (`SourceCurator.curate_sources`, skills/curator.py) -/

/-- An event appended to the research log by `_log_event`. -/
structure LogEvent where
  message : String
  done : Bool
  error : Bool
deriving DecidableEq, Repr

/-- Embeds `SourceCurator.curate_sources`: the model call and the
`json.loads` parse run inside one `try`; any failure is caught, an error
event is logged, and the original `source_data` is returned.  On success the
curated list is returned with the two success log events.  The model call
and the parser are parameters (external collaborators). -/
def curate_sources {α : Type} (create_chat_completion : Except String String)
    (json_loads : String → Except String (List α)) (source_data : List α) :
    List α × List LogEvent :=
  let log0 : List LogEvent :=
    [⟨"Evaluating and curating sources by credibility and relevance...", false, false⟩]
  match create_chat_completion with
  | .error e => (source_data, log0 ++ [⟨"Error curating sources: " ++ e, true, true⟩])
  | .ok response =>
    match json_loads response with
    | .error e => (source_data, log0 ++ [⟨"Error curating sources: " ++ e, true, true⟩])
    | .ok curated_sources =>
      (curated_sources,
        log0 ++
          [⟨"Curated " ++ toString curated_sources.length ++ " sources", true, false⟩,
           ⟨"Verified and ranked top " ++ toString curated_sources.length ++
              " most reliable sources", false, false⟩])

/-- C5. Curation fail-open: if the model call raises or its output does not
parse as JSON, `curate_sources` returns the original source list unchanged
and appends an error event to the log instead of raising. -/
theorem curate_sources_fail_open {α : Type} (llm : Except String String)
    (parse : String → Except String (List α)) (sources : List α)
    (h : ∀ r, llm = Except.ok r → ∃ e, parse r = Except.error e) :
    (curate_sources llm parse sources).1 = sources ∧
      ∃ ev ∈ (curate_sources llm parse sources).2, ev.error = true := by
  cases hllm : llm with
  | error e =>
    refine ⟨by simp [curate_sources], ?_⟩
    exact ⟨⟨"Error curating sources: " ++ e, true, true⟩, by simp [curate_sources], rfl⟩
  | ok r =>
    obtain ⟨e, he⟩ := h r hllm
    refine ⟨by simp [curate_sources, he], ?_⟩
    exact ⟨⟨"Error curating sources: " ++ e, true, true⟩, by simp [curate_sources, he], rfl⟩

/-- Witness for `curate_sources_fail_open`: a model call that raises, over a
one-element source list. -/
theorem curate_sources_fail_open_witness :
    (curate_sources (Except.error "connection error")
        (fun _ => (Except.error "Expecting value" : Except String (List String)))
        ["https://a.com"]).1 = ["https://a.com"] ∧
      ∃ ev ∈ (curate_sources (Except.error "connection error")
        (fun _ => (Except.error "Expecting value" : Except String (List String)))
        ["https://a.com"]).2, ev.error = true :=
  curate_sources_fail_open (Except.error "connection error") _ _
    (fun r hr => by simp at hr)

/-! ## Report generation (`generate_report`, actions/report_generation.py) -/

/-- A role-tagged chat message. -/
structure ChatMessage where
  role : String
  content : String
deriving DecidableEq, Repr

/-- Embeds `generate_report`: `report` starts as the empty string; the first
attempt sends the structured two-message prompt (system role prompt + user
content); on any exception a second attempt sends a single user-role message
with the two contents joined by a blank line; if that raises too the error is
logged and the initial empty string is returned.  The model call is a
parameter.  Returns (report, prompts attempted, writer log events). -/
def generate_report (create_chat_completion : List ChatMessage → Except String String)
    (agent_role_prompt content : String) :
    String × List (List ChatMessage) × List LogEvent :=
  let messages1 : List ChatMessage := [⟨"system", agent_role_prompt⟩, ⟨"user", content⟩]
  match create_chat_completion messages1 with
  | .ok report =>
    (report, [messages1],
      [⟨"Generating report...", false, false⟩, ⟨"Report generated", true, false⟩])
  | .error _ =>
    let messages2 : List ChatMessage := [⟨"user", agent_role_prompt ++ "\n\n" ++ content⟩]
    match create_chat_completion messages2 with
    | .ok report => (report, [messages1, messages2], [⟨"Generating report...", false, false⟩])
    | .error e =>
      ("", [messages1, messages2],
        [⟨"Generating report...", false, false⟩,
         ⟨"Error generating report: " ++ e, true, true⟩])

/-- C6. Report-generation degradation: when the structured two-message call
fails, exactly one second attempt is made, with both messages flattened into
a single user-role message; if the second attempt succeeds its text is the
report, and if it also fails the report is the empty string and an error
event is logged instead of an exception propagating. -/
theorem generate_report_degrades
    (call : List ChatMessage → Except String String) (role content e1 : String)
    (h1 : call [⟨"system", role⟩, ⟨"user", content⟩] = Except.error e1) :
    (generate_report call role content).2.1 =
        [[⟨"system", role⟩, ⟨"user", content⟩],
         [⟨"user", role ++ "\n\n" ++ content⟩]] ∧
      (∀ r, call [⟨"user", role ++ "\n\n" ++ content⟩] = Except.ok r →
        (generate_report call role content).1 = r) ∧
      (∀ e2, call [⟨"user", role ++ "\n\n" ++ content⟩] = Except.error e2 →
        (generate_report call role content).1 = "" ∧
          ∃ ev ∈ (generate_report call role content).2.2, ev.error = true) := by
  cases h2 : call [⟨"user", role ++ "\n\n" ++ content⟩] with
  | ok r =>
    refine ⟨?_, ?_, ?_⟩
    · simp [generate_report, h1, h2]
    · intro r' hr'
      injection hr' with hrr
      subst hrr
      simp [generate_report, h1, h2]
    · intro e2 he2
      exact Except.noConfusion he2
  | error e =>
    refine ⟨?_, ?_, ?_⟩
    · simp [generate_report, h1, h2]
    · intro r' hr'
      exact Except.noConfusion hr'
    · intro e2 he2
      refine ⟨by simp [generate_report, h1, h2], ?_⟩
      exact ⟨⟨"Error generating report: " ++ e, true, true⟩,
        by simp [generate_report, h1, h2], rfl⟩

/-- Witness for `generate_report_degrades`: a model call that always raises. -/
theorem generate_report_degrades_witness :
    (generate_report (fun (_ : List ChatMessage) => Except.error "rate limited") "r" "c").2.1 =
        [[⟨"system", "r"⟩, ⟨"user", "c"⟩],
         [⟨"user", "r" ++ "\n\n" ++ "c"⟩]] ∧
      (∀ r, (fun (_ : List ChatMessage) => (Except.error "rate limited" : Except String String))
            [⟨"user", "r" ++ "\n\n" ++ "c"⟩] = Except.ok r →
        (generate_report (fun (_ : List ChatMessage) => Except.error "rate limited") "r" "c").1 = r) ∧
      (∀ e2, (fun (_ : List ChatMessage) => (Except.error "rate limited" : Except String String))
            [⟨"user", "r" ++ "\n\n" ++ "c"⟩] = Except.error e2 →
        (generate_report (fun (_ : List ChatMessage) => Except.error "rate limited") "r" "c").1 = "" ∧
          ∃ ev ∈ (generate_report (fun (_ : List ChatMessage) => Except.error "rate limited") "r" "c").2.2,
            ev.error = true) :=
  generate_report_degrades (fun (_ : List ChatMessage) => Except.error "rate limited") "r" "c" "rate limited" rfl

/-! ## Review-revise loop (`EditorAgent._create_workflow`, multi_agents/agents/editor.py,
and `ReviewerAgent`, multi_agents/agents/reviewer.py) -/

/-- Embeds the compiled review loop of `EditorAgent._create_workflow`: the
reviewer node runs, then the conditional edge sends a `None` review to END
("accept") and any other review to the reviser, which feeds back into the
reviewer.  The reviewer is stubbed by the list of its successive review
results.  Returns (review evaluations, revisions, ended in Accepted). -/
def run_review_loop : List (Option String) → ℕ → ℕ → ℕ × ℕ × Bool
  | [], reviews, revisions => (reviews, revisions, false)
  | none :: _, reviews, revisions => (reviews + 1, revisions, true)
  | some _ :: rest, reviews, revisions => run_review_loop rest (reviews + 1) (revisions + 1)

/-- C2. Review-revise loop: a `None` review ends the loop in Accepted after
that evaluation; a non-`None` review triggers one revision and a further
review round; with a stub returning one non-empty feedback and then
acceptance, the loop performs exactly 2 review evaluations and 1 revision
and ends in Accepted. -/
theorem review_loop_two_reviews_one_revision (fb : String)
    (rest : List (Option String)) (r v : ℕ) :
    run_review_loop (none :: rest) r v = (r + 1, v, true) ∧
      run_review_loop (some fb :: rest) r v = run_review_loop rest (r + 1) (v + 1) ∧
      run_review_loop [some fb, none] 0 0 = (2, 1, true) :=
  ⟨rfl, rfl, rfl⟩

/-! ## Reviewer acceptance test (`ReviewerAgent.review_draft`, reviewer.py) -/

/-- Pythonic prefix test on character lists, mirroring `List.isPrefixOf`. -/
def charsPrefix : List Char → List Char → Bool
  | [], _ => true
  | _ :: _, [] => false
  | a :: as, b :: bs => a == b && charsPrefix as bs

/-- Pythonic substring test `pat in s` on character lists: some suffix of `s`
starts with `pat`. -/
def charsContain (pat : List Char) : List Char → Bool
  | [] => pat.isEmpty
  | c :: t => charsPrefix pat (c :: t) || charsContain pat t

/-- Python's `pat in s` on strings. -/
def strContain (s pat : String) : Bool :=
  charsContain pat.toList s.toList

lemma charsPrefix_iff (p : List Char) :
    ∀ l, charsPrefix p l = true ↔ ∃ t, l = p ++ t := by
  induction p with
  | nil => intro l; simp [charsPrefix]
  | cons a as ih =>
    intro l
    cases l with
    | nil =>
      simp only [charsPrefix, List.cons_append]
      constructor
      · intro h; cases h
      · rintro ⟨t, ht⟩; cases ht
    | cons b bs =>
      simp only [charsPrefix, Bool.and_eq_true, beq_iff_eq, ih bs]
      constructor
      · rintro ⟨hab, t, ht⟩
        exact ⟨t, by simp [hab, ht]⟩
      · rintro ⟨t, ht⟩
        simp only [List.cons_append, List.cons.injEq] at ht
        exact ⟨ht.1.symm, t, ht.2⟩

lemma charsContain_iff (pat : List Char) :
    ∀ s, charsContain pat s = true ↔ ∃ p q, s = p ++ pat ++ q := by
  intro s
  induction s with
  | nil =>
    simp only [charsContain, List.isEmpty_iff]
    constructor
    · intro h
      exact ⟨[], [], by simp [h]⟩
    · rintro ⟨p, q, hpq⟩
      rcases List.append_eq_nil.mp (List.append_eq_nil.mp hpq.symm).1 with ⟨-, h2⟩
      exact h2
  | cons c t ih =>
    simp only [charsContain, Bool.or_eq_true, charsPrefix_iff, ih]
    constructor
    · rintro (⟨r, hr⟩ | ⟨p, q, hpq⟩)
      · exact ⟨[], r, by simpa using hr⟩
      · exact ⟨c :: p, q, by simp [hpq]⟩
    · rintro ⟨p, q, hpq⟩
      cases p with
      | nil =>
        exact Or.inl ⟨q, by simpa using hpq⟩
      | cons c' p' =>
        simp only [List.cons_append, List.cons.injEq, List.append_assoc] at hpq
        exact Or.inr ⟨p', q, by simp [hpq.2]⟩

/-- Embeds the acceptance test at the end of `ReviewerAgent.review_draft`:
`if "None" in response: return None` else `return response`. -/
def review_draft_result (response : String) : Option String :=
  if strContain response "None" then none else some response

/-- C10. Reviewer acceptance is substring-based: the review is `None`
(acceptance) exactly when the string "None" occurs anywhere in the model
response, otherwise the full response is returned as feedback; in particular
a non-empty revision note containing the word "None" is treated as
acceptance. -/
theorem review_draft_none_substring (response : String) :
    (review_draft_result response = none ↔
        ∃ p q, response.toList = p ++ "None".toList ++ q) ∧
      (review_draft_result response = some response ↔
        ¬∃ p q, response.toList = p ++ "None".toList ++ q) ∧
      review_draft_result "None of the guideline criteria are met; rewrite section 2." =
        none := by
  by_cases hb : strContain response "None" = true
  · have hex : ∃ p q, response.toList = p ++ "None".toList ++ q :=
      (charsContain_iff "None".toList response.toList).mp hb
    have hval : review_draft_result response = none := by
      unfold review_draft_result
      simp [hb]
    refine ⟨?_, ?_, rfl⟩
    · rw [hval]
      exact iff_of_true rfl hex
    · rw [hval]
      exact iff_of_false (by simp) (not_not_intro hex)
  · have hnot : ¬∃ p q, response.toList = p ++ "None".toList ++ q := by
      intro hx
      exact hb ((charsContain_iff "None".toList response.toList).mpr hx)
    have hval : review_draft_result response = some response := by
      unfold review_draft_result
      simp only [Bool.not_eq_true] at hb
      simp [hb]
    refine ⟨?_, ?_, rfl⟩
    · rw [hval]
      exact iff_of_false (by simp) hnot
    · rw [hval]
      exact iff_of_true rfl hnot

/-! ## Retriever and LLM-provider resolution (actions/retriever.py and
llm_provider/generic/base.py) -/

/-- The retriever adapter classes importable in `get_retriever`. -/
inductive RetrieverClass where
  | GoogleSearch
  | SearxSearch
  | SearchApiSearch
  | SerpApiSearch
  | SerperSearch
  | Duckduckgo
  | BingSearch
  | ArxivSearch
  | TavilySearch
  | ExaSearch
  | SemanticScholarSearch
  | PubMedCentralSearch
  | CustomRetriever
deriving DecidableEq, Repr

/-- Embeds `get_retriever`: the `match` over retriever names; any other name
falls to the wildcard case and yields `None`. -/
def get_retriever (retriever : String) : Option RetrieverClass :=
  match retriever with
  | "google" => some .GoogleSearch
  | "searx" => some .SearxSearch
  | "searchapi" => some .SearchApiSearch
  | "serpapi" => some .SerpApiSearch
  | "serper" => some .SerperSearch
  | "duckduckgo" => some .Duckduckgo
  | "bing" => some .BingSearch
  | "arxiv" => some .ArxivSearch
  | "tavily" => some .TavilySearch
  | "exa" => some .ExaSearch
  | "semantic_scholar" => some .SemanticScholarSearch
  | "pubmed_central" => some .PubMedCentralSearch
  | "custom" => some .CustomRetriever
  | _ => none

/-- Embeds `get_default_retriever`. -/
def get_default_retriever : RetrieverClass := .TavilySearch

/-- Python truthiness of an optional string. -/
def truthyStr : Option String → Bool
  | some s => !s.isEmpty
  | none => false

/-- Embeds `get_retrievers`: headers are checked first ("retrievers" as a
comma-separated string, then "retriever"), then the config, then the default
retriever's class name; each name is mapped with
`get_retriever(r) or get_default_retriever()`, so an invalid name is
replaced by the default. -/
def get_retrievers (headers_retrievers headers_retriever : Option String)
    (cfg_retrievers : Option (List String)) (cfg_retriever : Option String) :
    List RetrieverClass :=
  let names : List String :=
    if truthyStr headers_retrievers then (headers_retrievers.getD "").splitOn ","
    else if truthyStr headers_retriever then [headers_retriever.getD ""]
    else if (cfg_retrievers.getD []).isEmpty = false then cfg_retrievers.getD []
    else if truthyStr cfg_retriever then [cfg_retriever.getD ""]
    else ["TavilySearch"]
  names.map (fun r => (get_retriever r).getD get_default_retriever)

/-- The `_SUPPORTED_PROVIDERS` set of `GenericLLMProvider` (a python set;
listed in declaration order). -/
def SUPPORTED_PROVIDERS : List String :=
  ["openai", "anthropic", "azure_openai", "cohere", "google_vertexai",
   "google_genai", "fireworks", "ollama", "together", "mistralai",
   "huggingface", "groq", "bedrock", "dashscope", "xai", "deepseek",
   "litellm", "gigachat"]

/-- Embeds the provider dispatch of `GenericLLMProvider.from_provider`: a
supported name constructs its client, any other name raises
`ValueError("Unsupported {provider}. ...")`.  (The order of the joined
supported-provider names in the real message is that of a python set and is
unspecified; the error value here records the unsupported name.) -/
def from_provider (provider : String) : Except String String :=
  if provider ∈ SUPPORTED_PROVIDERS then Except.ok provider
  else Except.error ("Unsupported " ++ provider ++ ".\n\nSupported model providers are: " ++
    String.intercalate ", " SUPPORTED_PROVIDERS)

/-- C7, counterexample: the unsupported retriever name "fakeprovider" is not
a configuration-time error — `get_retriever` yields `None` and
`get_retrievers` silently maps the name to the default Tavily adapter. -/
theorem get_retrievers_silent_fallback :
    get_retriever "fakeprovider" = none ∧
      get_retrievers none (some "fakeprovider") none none =
        [RetrieverClass.TavilySearch] := by
  exact ⟨rfl, rfl⟩

/-- C7, amended: an unsupported LLM provider name is rejected with an
explicit `ValueError` by `from_provider`, while an unsupported retriever
name resolves to `None` in `get_retriever` and is silently replaced by the
default `TavilySearch` adapter in `get_retrievers`. -/
theorem unsupported_provider_resolution (name : String)
    (hp : name ∉ SUPPORTED_PROVIDERS) (hr : get_retriever name = none)
    (hne : name ≠ "") :
    from_provider name =
        Except.error ("Unsupported " ++ name ++ ".\n\nSupported model providers are: " ++
          String.intercalate ", " SUPPORTED_PROVIDERS) ∧
      get_retrievers none (some name) none none = [RetrieverClass.TavilySearch] := by
  constructor
  · simp [from_provider, hp]
  · have hie : name.isEmpty = false := by
      cases hie : name.isEmpty with
      | false => rfl
      | true => exact absurd ((String.isEmpty_iff name).mp hie) hne
    simp [get_retrievers, truthyStr, hie, hr, get_default_retriever]

/-- Witness for `unsupported_provider_resolution` at name = "fakeprovider". -/
theorem unsupported_provider_resolution_witness :
    from_provider "fakeprovider" =
        Except.error ("Unsupported " ++ "fakeprovider" ++ ".\n\nSupported model providers are: " ++
          String.intercalate ", " SUPPORTED_PROVIDERS) ∧
      get_retrievers none (some "fakeprovider") none none =
        [RetrieverClass.TavilySearch] :=
  unsupported_provider_resolution "fakeprovider" (by decide) rfl (by decide)

/-! ## Sub-query assembly (`ResearchSkill._get_context_by_web_search` and
`_get_context_by_vectorstore`, skills/researcher.py) -/

/-- Modelled from the spec: `plan_research_outline` (actions/query_processing.py,
the Query Planner of §4.1) is not under src/.  Per the spec it expands the
original query into a bounded, deduplicated set of sub-queries, each a
decomposition of the original query distinct from it; this predicate records
exactly that guarantee on its output. -/
def planner_outline_ok (query : String) (outline : List String) : Prop :=
  outline.Nodup ∧ query ∉ outline

/-- Embeds the sub-query assembly shared by `_get_context_by_web_search` and
`_get_context_by_vectorstore`: the planner outline, with the original query
appended unless the report type is "subtopic_report". -/
def assemble_sub_queries (outline : List String) (report_type query : String) :
    List String :=
  if report_type ≠ "subtopic_report" then outline ++ [query] else outline

/-- C8. Sub-query set construction: the dispatched sub-query list has no
duplicates, and it contains the original query exactly when the report type
is not "subtopic_report". -/
theorem sub_queries_nodup_and_original (outline : List String)
    (report_type query : String) (h : planner_outline_ok query outline) :
    (assemble_sub_queries outline report_type query).Nodup ∧
      (query ∈ assemble_sub_queries outline report_type query ↔
        report_type ≠ "subtopic_report") := by
  obtain ⟨hnd, hq⟩ := h
  unfold assemble_sub_queries
  by_cases hrt : report_type = "subtopic_report"
  · rw [if_neg (by simp [hrt])]
    exact ⟨hnd, by simp [hq, hrt]⟩
  · rw [if_pos hrt]
    refine ⟨?_, by simp [hrt]⟩
    simp [List.nodup_append, hnd, hq]

/-- Witness for `sub_queries_nodup_and_original` on a research report with a
two-element outline. -/
theorem sub_queries_nodup_and_original_witness :
    (assemble_sub_queries ["sq one", "sq two"] "research_report" "orig").Nodup ∧
      ("orig" ∈ assemble_sub_queries ["sq one", "sq two"] "research_report" "orig" ↔
        "research_report" ≠ "subtopic_report") :=
  sub_queries_nodup_and_original ["sq one", "sq two"] "research_report" "orig"
    (by constructor
        · decide
        · decide)

/-! ## Image selection (`BrowserSkill.select_top_images`, skills/browser.py) -/

/-- An image candidate dictionary with its url and relevance score. -/
structure ImageCandidate where
  url : String
  score : Int
deriving DecidableEq, Repr

/-- Embeds the loop body of `select_top_images`: walk the candidate list; a
candidate whose content hash is truthy, unseen, and whose url is not in the
state's pre-existing `research_images` is appended to `unique_images` and its
hash recorded; the loop breaks as soon as `len(unique_images) == k` holds
right after an append.  `get_image_hash` is the external hash (None models a
falsy/failed hash). -/
def select_images_go (get_image_hash : String → Option ℕ)
    (current_research_images : List String) (k : ℕ) :
    List ImageCandidate → Finset ℕ → List String → List String
  | [], _, unique_images => unique_images
  | img :: rest, seen_hashes, unique_images =>
    match get_image_hash img.url with
    | none => select_images_go get_image_hash current_research_images k rest
        seen_hashes unique_images
    | some h =>
      if h ∉ seen_hashes ∧ img.url ∉ current_research_images then
        if (unique_images ++ [img.url]).length = k then unique_images ++ [img.url]
        else select_images_go get_image_hash current_research_images k rest
          (insert h seen_hashes) (unique_images ++ [img.url])
      else select_images_go get_image_hash current_research_images k rest
        seen_hashes unique_images

/-- Embeds `select_top_images`: the score ≥ 2 candidates are processed first,
then the whole candidate list, starting from empty seen hashes and an empty
selection. -/
def select_top_images (get_image_hash : String → Option ℕ)
    (current_research_images : List String) (images : List ImageCandidate)
    (k : ℕ) : List String :=
  let high_score_images := images.filter (fun img => decide (2 ≤ img.score))
  select_images_go get_image_hash current_research_images k
    (high_score_images ++ images) ∅ []

lemma select_images_go_spec (get_image_hash : String → Option ℕ)
    (cur : List String) (k : ℕ) :
    ∀ (imgs : List ImageCandidate) (seen : Finset ℕ) (unique : List String),
      unique.length < k →
      (∀ u ∈ unique, ∃ h, get_image_hash u = some h ∧ h ∈ seen) →
      unique.Pairwise (fun u v => get_image_hash u ≠ get_image_hash v) →
      (∀ u ∈ unique, u ∉ cur) →
      (select_images_go get_image_hash cur k imgs seen unique).length ≤ k ∧
        (select_images_go get_image_hash cur k imgs seen unique).Pairwise
          (fun u v => get_image_hash u ≠ get_image_hash v) ∧
        (∀ u ∈ select_images_go get_image_hash cur k imgs seen unique, u ∉ cur) ∧
        ∃ t, select_images_go get_image_hash cur k imgs seen unique = unique ++ t ∧
          t.Sublist (imgs.map ImageCandidate.url) := by
  intro imgs
  induction imgs with
  | nil =>
    intro seen unique hlen hseen hpair hcur
    refine ⟨Nat.le_of_lt hlen, hpair, hcur, [], by simp [select_images_go], by simp⟩
  | cons img rest ih =>
    intro seen unique hlen hseen hpair hcur
    cases hh : get_image_hash img.url with
    | none =>
      have hres : select_images_go get_image_hash cur k (img :: rest) seen unique =
          select_images_go get_image_hash cur k rest seen unique := by
        simp [select_images_go, hh]
      rw [hres]
      obtain ⟨h1, h2, h3, t, ht, hsub⟩ := ih seen unique hlen hseen hpair hcur
      exact ⟨h1, h2, h3, t, ht, hsub.trans (List.sublist_cons_self _ _)⟩
    | some h =>
      by_cases hcond : h ∉ seen ∧ img.url ∉ cur
      · have hpair' : (unique ++ [img.url]).Pairwise
            (fun u v => get_image_hash u ≠ get_image_hash v) := by
          rw [List.pairwise_append]
          refine ⟨hpair, List.pairwise_singleton _ _, ?_⟩
          intro u hu v hv
          rw [List.mem_singleton] at hv
          subst hv
          obtain ⟨h', hh', hmem⟩ := hseen u hu
          rw [hh', hh]
          intro hcontra
          injection hcontra with hcontra
          exact hcond.1 (hcontra ▸ hmem)
        have hcur' : ∀ u ∈ unique ++ [img.url], u ∉ cur := by
          intro u hu
          rcases List.mem_append.mp hu with hu | hu
          · exact hcur u hu
          · rw [List.mem_singleton] at hu
            subst hu
            exact hcond.2
        by_cases hkk : (unique ++ [img.url]).length = k
        · have hres : select_images_go get_image_hash cur k (img :: rest) seen unique =
              unique ++ [img.url] := by
            simp only [select_images_go, hh]
            rw [if_pos hcond, if_pos hkk]
          rw [hres]
          refine ⟨le_of_eq hkk, hpair', hcur', [img.url], rfl, ?_⟩
          simp
        · have hres : select_images_go get_image_hash cur k (img :: rest) seen unique =
              select_images_go get_image_hash cur k rest (insert h seen)
                (unique ++ [img.url]) := by
            simp only [select_images_go, hh]
            rw [if_pos hcond, if_neg hkk]
          rw [hres]
          have hlen' : (unique ++ [img.url]).length < k := by
            have hkk' : unique.length + 1 ≠ k := by simpa using hkk
            rw [List.length_append, List.length_singleton]
            omega
          have hseen' : ∀ u ∈ unique ++ [img.url],
              ∃ h', get_image_hash u = some h' ∧ h' ∈ insert h seen := by
            intro u hu
            rcases List.mem_append.mp hu with hu | hu
            · obtain ⟨h', hh', hmem⟩ := hseen u hu
              exact ⟨h', hh', Finset.mem_insert_of_mem hmem⟩
            · rw [List.mem_singleton] at hu
              subst hu
              exact ⟨h, hh, Finset.mem_insert_self _ _⟩
          obtain ⟨h1, h2, h3, t, ht, hsub⟩ :=
            ih (insert h seen) (unique ++ [img.url]) hlen' hseen' hpair' hcur'
          refine ⟨h1, h2, h3, img.url :: t, by rw [ht]; simp, ?_⟩
          simpa using List.Sublist.cons₂ img.url hsub
      · have hres : select_images_go get_image_hash cur k (img :: rest) seen unique =
            select_images_go get_image_hash cur k rest seen unique := by
          simp only [select_images_go, hh]
          rw [if_neg hcond]
        rw [hres]
        obtain ⟨h1, h2, h3, t, ht, hsub⟩ := ih seen unique hlen hseen hpair hcur
        exact ⟨h1, h2, h3, t, ht, hsub.trans (List.sublist_cons_self _ _)⟩

/-- C4, counterexample: with k = 0 the break test `len(unique_images) == k`
can never hold after an append, so the selection is not bounded by k: one
candidate yields one selected url, exceeding k = 0. -/
theorem select_top_images_k_zero_unbounded :
    select_top_images (fun _ => some 1) [] [⟨"https://img.example/a.png", 0⟩] 0 =
        ["https://img.example/a.png"] ∧
      ¬((select_top_images (fun _ => some 1) []
          [⟨"https://img.example/a.png", 0⟩] 0).length ≤ 0) := by
  refine ⟨rfl, ?_⟩
  intro hle
  have h1 : (select_top_images (fun _ => some 1) []
      [⟨"https://img.example/a.png", 0⟩] 0).length = 1 := rfl
  omega

/-- C4, amended: for every k ≥ 1 (the break test `len == k` requires at
least one appended element), `select_top_images` returns at most k urls, no
two selected entries share a content hash, no selected url is in the state's
pre-existing image list, and the selection order follows the pass over the
score ≥ 2 candidates first and the remaining candidates second. -/
theorem select_top_images_spec (get_image_hash : String → Option ℕ)
    (cur : List String) (images : List ImageCandidate) (k : ℕ) (hk : 1 ≤ k) :
    (select_top_images get_image_hash cur images k).length ≤ k ∧
      (select_top_images get_image_hash cur images k).Pairwise
        (fun u v => get_image_hash u ≠ get_image_hash v) ∧
      (∀ u ∈ select_top_images get_image_hash cur images k, u ∉ cur) ∧
      (select_top_images get_image_hash cur images k).Sublist
        (((images.filter (fun img => decide (2 ≤ img.score))) ++ images).map
          ImageCandidate.url) := by
  obtain ⟨h1, h2, h3, t, ht, hsub⟩ :=
    select_images_go_spec get_image_hash cur k
      ((images.filter (fun img => decide (2 ≤ img.score))) ++ images) ∅ []
      (by simp only [List.length_nil]; omega) (by simp) (by simp) (by simp)
  refine ⟨h1, h2, h3, ?_⟩
  have : select_top_images get_image_hash cur images k = t := by
    rw [select_top_images, ht]
    simp
  rw [this]
  exact hsub

/-- Witness for `select_top_images_spec` on the spec's example: five images
with scores [3, 1, 3, 0, 2], distinct hashes, k = 4. -/
theorem select_top_images_spec_witness :
    (select_top_images (fun u => some u.length) []
        [⟨"u0", 3⟩, ⟨"u11", 1⟩, ⟨"u222", 3⟩, ⟨"u3333", 0⟩, ⟨"u44444", 2⟩] 4).length ≤ 4 ∧
      (select_top_images (fun u => some u.length) []
        [⟨"u0", 3⟩, ⟨"u11", 1⟩, ⟨"u222", 3⟩, ⟨"u3333", 0⟩, ⟨"u44444", 2⟩] 4).Pairwise
        (fun u v => (fun u => some u.length) u ≠ (fun u => some u.length) v) ∧
      (∀ u ∈ select_top_images (fun u => some u.length) []
        [⟨"u0", 3⟩, ⟨"u11", 1⟩, ⟨"u222", 3⟩, ⟨"u3333", 0⟩, ⟨"u44444", 2⟩] 4, u ∉ ([] : List String)) ∧
      (select_top_images (fun u => some u.length) []
        [⟨"u0", 3⟩, ⟨"u11", 1⟩, ⟨"u222", 3⟩, ⟨"u3333", 0⟩, ⟨"u44444", 2⟩] 4).Sublist
        (((([⟨"u0", 3⟩, ⟨"u11", 1⟩, ⟨"u222", 3⟩, ⟨"u3333", 0⟩,
            ⟨"u44444", 2⟩] : List ImageCandidate).filter
              (fun img => decide (2 ≤ img.score))) ++
          ([⟨"u0", 3⟩, ⟨"u11", 1⟩, ⟨"u222", 3⟩, ⟨"u3333", 0⟩,
            ⟨"u44444", 2⟩] : List ImageCandidate)).map
          ImageCandidate.url) :=
  select_top_images_spec (fun u => some u.length) []
    [⟨"u0", 3⟩, ⟨"u11", 1⟩, ⟨"u222", 3⟩, ⟨"u3333", 0⟩, ⟨"u44444", 2⟩] 4 (by omega)

/-- The spec's worked example, evaluated: scores [3, 1, 3, 0, 2] with
distinct hashes and k = 4 select the three score ≥ 2 candidates first and
then the next remaining candidate, for exactly 4 results. -/
theorem select_top_images_example :
    select_top_images (fun u => some u.length) []
        [⟨"u0", 3⟩, ⟨"u11", 1⟩, ⟨"u222", 3⟩, ⟨"u3333", 0⟩, ⟨"u44444", 2⟩] 4 =
      ["u0", "u222", "u44444", "u11"] := rfl

end Researcher
